import Mathlib

/-
Verification of the pdfmapper geometry / interaction / generation engine.

Numbers are modelled by the rationals: the source operates on JS floats,
and every claim is stated "within floating tolerance", which exact
rational arithmetic satisfies.  Each definition below is a direct
transcription of the corresponding TypeScript function.
-/

namespace PdfMapper

/-- Normalized or pixel rectangle `{x, y, w, h}` (src/types: FieldRect and
the structurally identical pixel rect literals). -/
structure FieldRect where
  x : ℚ
  y : ℚ
  w : ℚ
  h : ℚ
deriving DecidableEq

/-- Page dimensions `{width, height}` (src/types: PageDimensions). -/
structure PageDimensions where
  width : ℚ
  height : ℚ
deriving DecidableEq

/-- Field types (src/types: FieldType). -/
inductive FieldType where
  | text
  | date
  | checkbox
deriving DecidableEq

/-- Font sizes (src/types: Field.fontSize). -/
inductive FontSize where
  | small
  | medium
  | large
deriving DecidableEq

/-- A field definition (src/types: Field).  `fontSize` is optional in the
source, hence `Option FontSize`; `page_number` is a JS number used as an
integer, hence `Int`. -/
structure Field where
  id : String
  key : String
  type : FieldType
  page_number : Int
  fontSize : Option FontSize
  rect : FieldRect
deriving DecidableEq

/-- src/lib/coordinates.ts `pixelsToPercentage`: divide each component by
the corresponding page dimension. -/
def pixelsToPercentage (pixelRect : FieldRect) (pageDimensions : PageDimensions) : FieldRect :=
  { x := pixelRect.x / pageDimensions.width
    y := pixelRect.y / pageDimensions.height
    w := pixelRect.w / pageDimensions.width
    h := pixelRect.h / pageDimensions.height }

/-- src/lib/coordinates.ts `percentageToPixels`: multiply each component by
the corresponding page dimension. -/
def percentageToPixels (percentRect : FieldRect) (pageDimensions : PageDimensions) : FieldRect :=
  { x := percentRect.x * pageDimensions.width
    y := percentRect.y * pageDimensions.height
    w := percentRect.w * pageDimensions.width
    h := percentRect.h * pageDimensions.height }

/-- Result type of `percentageToPDFCoords`. -/
structure PDFCoords where
  x0 : ℚ
  y0 : ℚ
  x1 : ℚ
  y1 : ℚ
deriving DecidableEq

/-- src/lib/coordinates.ts `percentageToPDFCoords`. -/
def percentageToPDFCoords (percentRect : FieldRect) (pdfPageDimensions : PageDimensions) :
    PDFCoords :=
  { x0 := percentRect.x * pdfPageDimensions.width
    y0 := percentRect.y * pdfPageDimensions.height
    x1 := (percentRect.x + percentRect.w) * pdfPageDimensions.width
    y1 := (percentRect.y + percentRect.h) * pdfPageDimensions.height }

/-- src/lib/coordinates.ts `normalizeRect`: rectangle with non-negative
width/height from two corner points. -/
def normalizeRect (startX startY endX endY : ℚ) : FieldRect :=
  { x := min startX endX
    y := min startY endY
    w := |endX - startX|
    h := |endY - startY| }

/-- src/lib/coordinates.ts `MIN_FIELD_SIZE_PERCENT = 0.01`. -/
def MIN_FIELD_SIZE_PERCENT : ℚ := 1 / 100

/-- src/lib/coordinates.ts `isValidFieldSize`. -/
def isValidFieldSize (rect : FieldRect) : Bool :=
  MIN_FIELD_SIZE_PERCENT ≤ rect.w ∧ MIN_FIELD_SIZE_PERCENT ≤ rect.h

/-- src/lib/utils.ts `clamp`: `Math.min(Math.max(value, min), max)`. -/
def clamp (value lo hi : ℚ) : ℚ :=
  min (max value lo) hi

/-- Drag modes of the FieldRectangle component (`type DragMode`).  `idle`
models the source's `'none'`, in which the mouse-move effect is not
installed and the rect is untouched. -/
inductive DragMode where
  | idle
  | move
  | resizeNW
  | resizeNE
  | resizeSW
  | resizeSE
deriving DecidableEq

/-- FieldRectangle.tsx `MIN_SIZE = 20` (pixels). -/
def MIN_SIZE : ℚ := 20

/-- One mouse-move of the FieldRectangle drag effect, in pixel space:
`initialRect` is the pixel rect captured at mouse-down and `deltaX`,
`deltaY` the pointer displacement.  Direct transcription of the
`handleMouseMove` branches. -/
def dragStepPx (mode : DragMode) (initialRect : FieldRect) (deltaX deltaY : ℚ)
    (pageDimensions : PageDimensions) : FieldRect :=
  match mode with
  | DragMode.idle => initialRect
  | DragMode.move =>
      { initialRect with
        x := clamp (initialRect.x + deltaX) 0 (pageDimensions.width - initialRect.w)
        y := clamp (initialRect.y + deltaY) 0 (pageDimensions.height - initialRect.h) }
  | DragMode.resizeSE =>
      { initialRect with
        w := clamp (initialRect.w + deltaX) MIN_SIZE (pageDimensions.width - initialRect.x)
        h := clamp (initialRect.h + deltaY) MIN_SIZE (pageDimensions.height - initialRect.y) }
  | DragMode.resizeSW =>
      let newX := clamp (initialRect.x + deltaX) 0 (initialRect.x + initialRect.w - MIN_SIZE)
      { x := newX
        w := initialRect.w + (initialRect.x - newX)
        y := initialRect.y
        h := clamp (initialRect.h + deltaY) MIN_SIZE (pageDimensions.height - initialRect.y) }
  | DragMode.resizeNE =>
      let newY := clamp (initialRect.y + deltaY) 0 (initialRect.y + initialRect.h - MIN_SIZE)
      { x := initialRect.x
        w := clamp (initialRect.w + deltaX) MIN_SIZE (pageDimensions.width - initialRect.x)
        y := newY
        h := initialRect.h + (initialRect.y - newY) }
  | DragMode.resizeNW =>
      let newX := clamp (initialRect.x + deltaX) 0 (initialRect.x + initialRect.w - MIN_SIZE)
      let newY := clamp (initialRect.y + deltaY) 0 (initialRect.y + initialRect.h - MIN_SIZE)
      { x := newX
        w := initialRect.w + (initialRect.x - newX)
        y := newY
        h := initialRect.h + (initialRect.y - newY) }

/-- A full drag of a field stored in normalized space: the pixel rect is
captured via `percentageToPixels` at mouse-down, the last mouse-move is
applied (every mouse-move recomputes from the same `initialRect`, so the
final delta determines the outcome), and the result is stored back via
`pixelsToPercentage` (`updateField(field.id, { rect: percentRect })`). -/
def dragStep (mode : DragMode) (rect : FieldRect) (deltaX deltaY : ℚ)
    (pageDimensions : PageDimensions) : FieldRect :=
  pixelsToPercentage
    (dragStepPx mode (percentageToPixels rect pageDimensions) deltaX deltaY pageDimensions)
    pageDimensions

/-- A sequence of drag operations applied to a field's normalized rect. -/
def applyDrags (ops : List (DragMode × ℚ × ℚ)) (rect : FieldRect)
    (pageDimensions : PageDimensions) : FieldRect :=
  ops.foldl (fun r op => dragStep op.1 r op.2.1 op.2.2 pageDimensions) rect

/-- The page-bounds invariant on a normalized rect:
`0 ≤ x`, `0 ≤ y`, `x + w ≤ 1`, `y + h ≤ 1`. -/
def boundsInv (r : FieldRect) : Prop :=
  0 ≤ r.x ∧ 0 ≤ r.y ∧ r.x + r.w ≤ 1 ∧ r.y + r.h ≤ 1

/-- The rect's rendered pixel width and height are at least `MIN_SIZE`. -/
def minSizePx (r : FieldRect) (d : PageDimensions) : Prop :=
  MIN_SIZE ≤ r.w * d.width ∧ MIN_SIZE ≤ r.h * d.height

/-- Pixel-space counterpart of the invariant used in the drag proofs. -/
def pxInv (r : FieldRect) (d : PageDimensions) : Prop :=
  0 ≤ r.x ∧ 0 ≤ r.y ∧ r.x + r.w ≤ d.width ∧ r.y + r.h ≤ d.height ∧
    MIN_SIZE ≤ r.w ∧ MIN_SIZE ≤ r.h

/-- Partial updates (`Partial<Field>`) as passed to `updateField`: present
components overwrite the field's, absent ones leave it unchanged. -/
structure FieldUpdate where
  id : Option String := none
  key : Option String := none
  type : Option FieldType := none
  page_number : Option Int := none
  fontSize : Option (Option FontSize) := none
  rect : Option FieldRect := none

/-- Spread-merge `{ ...f, ...updates }` of a partial update into a field. -/
def applyUpdate (u : FieldUpdate) (f : Field) : Field :=
  { id := u.id.getD f.id
    key := u.key.getD f.key
    type := u.type.getD f.type
    page_number := u.page_number.getD f.page_number
    fontSize := u.fontSize.getD f.fontSize
    rect := u.rect.getD f.rect }

/-- The field registry slice of the Zustand store relevant to selection:
the field list and the selected id. -/
structure RegistryState where
  fields : List Field
  selectedFieldId : Option String
deriving DecidableEq

/-- store/template.ts `addField`: `[...state.fields, field]`. -/
def addField (f : Field) (st : RegistryState) : RegistryState :=
  { st with fields := st.fields ++ [f] }

/-- The field-list part of `updateField`:
`state.fields.map(f => f.id === id ? { ...f, ...updates } : f)`. -/
def updateFieldList (fs : List Field) (id : String) (u : FieldUpdate) : List Field :=
  fs.map fun f => if f.id = id then applyUpdate u f else f

/-- store/template.ts `updateField`. -/
def updateField (id : String) (u : FieldUpdate) (st : RegistryState) : RegistryState :=
  { st with fields := updateFieldList st.fields id u }

/-- store/template.ts `removeField`: filter the id out and clear the
selection when the removed id was selected. -/
def removeField (id : String) (st : RegistryState) : RegistryState :=
  { fields := st.fields.filter fun f => f.id ≠ id
    selectedFieldId := if st.selectedFieldId = some id then none else st.selectedFieldId }

/-- store/template.ts `setFields`: wholesale replacement, selection
untouched. -/
def setFields (fs : List Field) (st : RegistryState) : RegistryState :=
  { st with fields := fs }

/-- Selection consistency: the selected id, when present, names a field of
the registry. -/
def selectionConsistent (st : RegistryState) : Prop :=
  ∀ i, st.selectedFieldId = some i → ∃ f ∈ st.fields, f.id = i

/-- FieldSidebar.tsx `handleApplyToAll` argument. -/
inductive ApplyProp where
  | w
  | h
  | both
deriving DecidableEq

/-- The rect written to one recipient:
`{ ...field.rect, ...updates }` with `updates.w`/`updates.h` taken from the
selected field's rect according to the chosen property. -/
def applyWH (prop : ApplyProp) (sel target : FieldRect) : FieldRect :=
  { target with
    w := if prop = ApplyProp.w ∨ prop = ApplyProp.both then sel.w else target.w
    h := if prop = ApplyProp.h ∨ prop = ApplyProp.both then sel.h else target.h }

/-- A `Partial<Field>` carrying only a rect. -/
def rectUpdate (r : FieldRect) : FieldUpdate :=
  { rect := some r }

/-- `fields.find(f => f.id === selectedFieldId)`. -/
def findField : List Field → String → Option Field
  | [], _ => none
  | f :: fs, sid => if f.id = sid then some f else findField fs sid

/-- `fields.filter(f => f.page_number === sel.page_number && f.id !== sel.id)`. -/
def fieldsOnPageExcept : List Field → Int → String → List Field
  | [], _, _ => []
  | f :: fs, p, sid =>
      if f.page_number = p ∧ f.id ≠ sid then f :: fieldsOnPageExcept fs p sid
      else fieldsOnPageExcept fs p sid

/-- FieldSidebar.tsx `handleApplyToAll`: look up the selected field, collect
the other fields on its page from the current list, then `forEach` call
`updateField` with the snapshot rect merged with the copied dimensions. -/
def handleApplyToAll (prop : ApplyProp) (st : RegistryState) : RegistryState :=
  match st.selectedFieldId with
  | none => st
  | some sid =>
    match findField st.fields sid with
    | none => st
    | some sel =>
      let samePage := fieldsOnPageExcept st.fields sel.page_number sel.id
      { st with
        fields := samePage.foldl
          (fun fs f => updateFieldList fs f.id (rectUpdate (applyWH prop sel.rect f.rect)))
          st.fields }

/-- A selected field whose width is 9/10 of the page. -/
def overflowSel : Field :=
  { id := "a", key := "k1", type := FieldType.text, page_number := 1, fontSize := none
    rect := ⟨0, 0, 9 / 10, 1 / 10⟩ }

/-- A recipient on the same page whose x is near the page edge. -/
def overflowRecipient : Field :=
  { id := "b", key := "k2", type := FieldType.text, page_number := 1, fontSize := none
    rect := ⟨1 / 2, 0, 1 / 10, 1 / 10⟩ }

/-- A registry in which applying the selected width overflows the page. -/
def overflowState : RegistryState :=
  { fields := [overflowSel, overflowRecipient], selectedFieldId := some "a" }

/-- Transient drawing state (src/types: DrawingState). -/
structure DrawingState where
  isDrawing : Bool
  startX : ℚ
  startY : ℚ
  currentX : ℚ
  currentY : ℚ
  pageNumber : Int
deriving DecidableEq

/-- store/template.ts `initialDrawingState`. -/
def initialDrawingState : DrawingState :=
  { isDrawing := false, startX := 0, startY := 0, currentX := 0, currentY := 0, pageNumber := 1 }

/-- The store slice the FieldOverlay component interacts with.  The
per-page dimensions map is modelled as a partial function from page
numbers. -/
structure EditorState where
  fields : List Field
  selectedFieldId : Option String
  drawingState : DrawingState
  pageDimensions : Int → Option PageDimensions

/-- FieldOverlay.tsx `handleMouseUp` for the overlay of page `pageNumber`.
`newId` stands for the value produced by `generateId()` (wall-clock and
randomness based, hence a parameter).  On a completed gesture the
normalized rect is computed via `normalizeRect` + `pixelsToPercentage`; a
viable rect yields a new selected text field with the auto-generated key
`field_<n+1>`, otherwise nothing is created; the drawing state is reset in
every branch. -/
def handleMouseUp (pageNumber : Int) (newId : String) (st : EditorState) : EditorState :=
  match st.pageDimensions pageNumber with
  | none => { st with drawingState := initialDrawingState }
  | some dims =>
    if st.drawingState.isDrawing = true ∧ st.drawingState.pageNumber = pageNumber then
      let pixelRect := normalizeRect st.drawingState.startX st.drawingState.startY
        st.drawingState.currentX st.drawingState.currentY
      let percentRect := pixelsToPercentage pixelRect dims
      if isValidFieldSize percentRect then
        let newField : Field :=
          { id := newId
            key := "field_" ++ toString (st.fields.length + 1)
            type := FieldType.text
            page_number := pageNumber
            fontSize := none
            rect := percentRect }
        { st with
          fields := st.fields ++ [newField]
          selectedFieldId := some newId
          drawingState := initialDrawingState }
      else { st with drawingState := initialDrawingState }
    else { st with drawingState := initialDrawingState }

/-- The normalized rect computed on pointer-up from the drawing state. -/
def drawnRect (st : EditorState) (dims : PageDimensions) : FieldRect :=
  pixelsToPercentage
    (normalizeRect st.drawingState.startX st.drawingState.startY
      st.drawingState.currentX st.drawingState.currentY) dims

/-- A concrete editor state with a drawing gesture in progress on page 1. -/
def exEditorState : EditorState :=
  { fields := []
    selectedFieldId := none
    drawingState := { isDrawing := true, startX := 10, startY := 10, currentX := 60
                      currentY := 60, pageNumber := 1 }
    pageDimensions := fun n => if n = 1 then some ⟨100, 100⟩ else none }

/-- Scalar values of a generation record
(src/types: `GenerationData = Record<string, string | boolean | number | null>`). -/
inductive JSValue where
  | str (s : String)
  | bool (b : Bool)
  | num (q : ℚ)
  | null
deriving DecidableEq

/-- `'0'..'9'` for a digit. -/
def digitChar (d : Nat) : Char :=
  Char.ofNat (48 + d)

/-- Decimal digit characters of a natural number, most significant first. -/
def natDigits (n : Nat) : List Char :=
  if n = 0 then ['0'] else ((Nat.digits 10 n).map digitChar).reverse

/-- Rendering of a numeric value as a string.  JS `String(number)` produces
a decimal numeral; only its shape matters here (digits, sign and
punctuation — never letters), so a non-integral rational is rendered as
`numerator/denominator`. -/
def ratToString (q : ℚ) : String :=
  ⟨(if q < 0 then ['-'] else []) ++ natDigits q.num.natAbs ++
    (if q.den = 1 then [] else '/' :: natDigits q.den)⟩

/-- JS `String(value)` on a generation-record scalar. -/
def jsToString : JSValue → String
  | JSValue.str s => s
  | JSValue.bool true => "true"
  | JSValue.bool false => "false"
  | JSValue.num q => ratToString q
  | JSValue.null => "null"

/-- JS `toLowerCase()`: lower each character. -/
def jsToLower (s : String) : String :=
  ⟨s.data.map Char.toLower⟩

/-- Kind of an overlay draw instruction. -/
inductive InstrKind where
  | text
  | mark
deriving DecidableEq

/-- One draw instruction produced by the generation loop: a `page.drawText`
call with its computed position and options.  A checkbox mark is the
literal `'X'` draw without wrapping options. -/
structure Instruction where
  page_number : Int
  kind : InstrKind
  x : ℚ
  y : ℚ
  size : ℚ
  content : String
  maxWidth : Option ℚ
  lineHeight : Option ℚ
deriving DecidableEq

/-- GenerationModal.tsx `fontSizeMap` with the `field.fontSize || 'medium'`
default: small→7, medium→9, large→12, unset→9. -/
def fontSizeLookup : Option FontSize → ℚ
  | some FontSize.small => 7
  | some FontSize.medium => 9
  | some FontSize.large => 12
  | none => 9

/-- `pages[i]` of the loaded document. -/
def nthPage : List PageDimensions → Nat → Option PageDimensions
  | [], _ => none
  | d :: _, 0 => some d
  | _ :: ds, n + 1 => nthPage ds n

/-- The body of the generation loop for one field (GenerationModal.tsx
`handlePreview`): skip on absent/null/empty value, skip on a page index
outside the document, then either a strict checkbox mark or a text draw
with padding 2, top-anchored flipped y, `maxWidth = w·W − 4` and
`lineHeight = fontSize · 1.2`. -/
def instrForField (pages : List PageDimensions) (data : String → Option JSValue)
    (f : Field) : List Instruction :=
  match data f.key with
  | none => []
  | some v =>
    if v = JSValue.null ∨ v = JSValue.str "" then []
    else
      let pageIndex : Int := f.page_number - 1
      if pageIndex < 0 then []
      else
        match nthPage pages pageIndex.toNat with
        | none => []
        | some d =>
          let x := f.rect.x * d.width + 2
          let fontSize := fontSizeLookup f.fontSize
          let y := d.height - f.rect.y * d.height - fontSize - 2
          let boxWidth := f.rect.w * d.width - 4
          let lineHeight := fontSize * 1.2
          if f.type = FieldType.checkbox then
            if jsToLower (jsToString v) = "true" ∨ v = JSValue.bool true then
              [{ page_number := f.page_number, kind := InstrKind.mark, x := x, y := y
                 size := fontSize, content := "X", maxWidth := none, lineHeight := none }]
            else []
          else
            [{ page_number := f.page_number, kind := InstrKind.text, x := x, y := y
               size := fontSize, content := jsToString v, maxWidth := some boxWidth
               lineHeight := some lineHeight }]

/-- The whole generation loop (`for (const field of fields)`). -/
def generate : List Field → List PageDimensions → (String → Option JSValue) → List Instruction
  | [], _, _ => []
  | f :: fs, pages, data => instrForField pages data f ++ generate fs pages data

theorem clamp_le (value lo hi : ℚ) : clamp value lo hi ≤ hi :=
  min_le_right _ _

theorem le_clamp (value : ℚ) {lo hi : ℚ} (h : lo ≤ hi) : lo ≤ clamp value lo hi :=
  le_min (le_max_right value lo) h

/-- A single mouse-move of the drag effect preserves the pixel-space
invariant, for every mode and every pointer delta. -/
theorem dragStepPx_preserves (mode : DragMode) (r : FieldRect) (dx dy : ℚ)
    (d : PageDimensions) (h : pxInv r d) : pxInv (dragStepPx mode r dx dy d) d := by
  obtain ⟨hx, hy, hxw, hyh, hw, hh⟩ := h
  have hms : (0 : ℚ) < MIN_SIZE := by norm_num [MIN_SIZE]
  cases mode with
  | idle => exact ⟨hx, hy, hxw, hyh, hw, hh⟩
  | move =>
    have c1 := clamp_le (r.x + dx) 0 (d.width - r.w)
    have c2 := le_clamp (r.x + dx) (show (0 : ℚ) ≤ d.width - r.w by linarith)
    have c3 := clamp_le (r.y + dy) 0 (d.height - r.h)
    have c4 := le_clamp (r.y + dy) (show (0 : ℚ) ≤ d.height - r.h by linarith)
    simp only [dragStepPx, pxInv]
    exact ⟨c2, c4, by linarith, by linarith, hw, hh⟩
  | resizeSE =>
    have c1 := clamp_le (r.w + dx) MIN_SIZE (d.width - r.x)
    have c2 := le_clamp (r.w + dx) (show MIN_SIZE ≤ d.width - r.x by linarith)
    have c3 := clamp_le (r.h + dy) MIN_SIZE (d.height - r.y)
    have c4 := le_clamp (r.h + dy) (show MIN_SIZE ≤ d.height - r.y by linarith)
    simp only [dragStepPx, pxInv]
    exact ⟨hx, hy, by linarith, by linarith, c2, c4⟩
  | resizeSW =>
    have c1 := clamp_le (r.x + dx) 0 (r.x + r.w - MIN_SIZE)
    have c2 := le_clamp (r.x + dx) (show (0 : ℚ) ≤ r.x + r.w - MIN_SIZE by linarith)
    have c3 := clamp_le (r.h + dy) MIN_SIZE (d.height - r.y)
    have c4 := le_clamp (r.h + dy) (show MIN_SIZE ≤ d.height - r.y by linarith)
    simp only [dragStepPx, pxInv]
    exact ⟨c2, hy, by linarith, by linarith, by linarith, c4⟩
  | resizeNE =>
    have c1 := clamp_le (r.w + dx) MIN_SIZE (d.width - r.x)
    have c2 := le_clamp (r.w + dx) (show MIN_SIZE ≤ d.width - r.x by linarith)
    have c3 := clamp_le (r.y + dy) 0 (r.y + r.h - MIN_SIZE)
    have c4 := le_clamp (r.y + dy) (show (0 : ℚ) ≤ r.y + r.h - MIN_SIZE by linarith)
    simp only [dragStepPx, pxInv]
    exact ⟨hx, c4, by linarith, by linarith, c2, by linarith⟩
  | resizeNW =>
    have c1 := clamp_le (r.x + dx) 0 (r.x + r.w - MIN_SIZE)
    have c2 := le_clamp (r.x + dx) (show (0 : ℚ) ≤ r.x + r.w - MIN_SIZE by linarith)
    have c3 := clamp_le (r.y + dy) 0 (r.y + r.h - MIN_SIZE)
    have c4 := le_clamp (r.y + dy) (show (0 : ℚ) ≤ r.y + r.h - MIN_SIZE by linarith)
    simp only [dragStepPx, pxInv]
    exact ⟨c2, c4, by linarith, by linarith, by linarith, by linarith⟩

/-- Going to pixel space preserves the invariant data. -/
theorem pxInv_of_inv {r : FieldRect} {d : PageDimensions} (hW : 0 < d.width)
    (hH : 0 < d.height) (hb : boundsInv r) (hm : minSizePx r d) :
    pxInv (percentageToPixels r d) d := by
  obtain ⟨hx, hy, hxw, hyh⟩ := hb
  obtain ⟨hmw, hmh⟩ := hm
  simp only [percentageToPixels, pxInv]
  refine ⟨mul_nonneg hx hW.le, mul_nonneg hy hH.le, ?_, ?_, hmw, hmh⟩
  · calc r.x * d.width + r.w * d.width = (r.x + r.w) * d.width := by ring
      _ ≤ 1 * d.width := mul_le_mul_of_nonneg_right hxw hW.le
      _ = d.width := one_mul _
  · calc r.y * d.height + r.h * d.height = (r.y + r.h) * d.height := by ring
      _ ≤ 1 * d.height := mul_le_mul_of_nonneg_right hyh hH.le
      _ = d.height := one_mul _

/-- Coming back from pixel space recovers the normalized invariant. -/
theorem inv_of_pxInv {r : FieldRect} {d : PageDimensions} (hW : 0 < d.width)
    (hH : 0 < d.height) (h : pxInv r d) :
    boundsInv (pixelsToPercentage r d) ∧ minSizePx (pixelsToPercentage r d) d := by
  obtain ⟨hx, hy, hxw, hyh, hw, hh⟩ := h
  simp only [pixelsToPercentage, boundsInv, minSizePx]
  refine ⟨⟨div_nonneg hx hW.le, div_nonneg hy hH.le, ?_, ?_⟩, ?_, ?_⟩
  · rw [div_add_div_same, div_le_one hW]; exact hxw
  · rw [div_add_div_same, div_le_one hH]; exact hyh
  · rw [div_mul_cancel₀ _ (ne_of_gt hW)]; exact hw
  · rw [div_mul_cancel₀ _ (ne_of_gt hH)]; exact hh

/-- One drag preserves the page-bounds invariant together with the pixel
minimum size. -/
theorem dragStep_preserves (mode : DragMode) (dx dy : ℚ) {r : FieldRect}
    {d : PageDimensions} (hW : 0 < d.width) (hH : 0 < d.height)
    (hb : boundsInv r) (hm : minSizePx r d) :
    boundsInv (dragStep mode r dx dy d) ∧ minSizePx (dragStep mode r dx dy d) d := by
  have h1 := pxInv_of_inv hW hH hb hm
  have h2 := dragStepPx_preserves mode _ dx dy d h1
  simpa only [dragStep] using inv_of_pxInv hW hH h2

/-- C1 (amended): the page-bounds invariant `0 ≤ x, 0 ≤ y, x+w ≤ 1, y+h ≤ 1`
is preserved by every sequence of move/resize drags, provided the field's
rendered pixel width and height are at least `MIN_SIZE = 20` (a condition
that is itself preserved).  Without the pixel minimum-size condition the
claim fails, see the counterexample. -/
theorem drag_sequence_invariant (ops : List (DragMode × ℚ × ℚ)) {r : FieldRect}
    {d : PageDimensions} (hW : 0 < d.width) (hH : 0 < d.height)
    (hb : boundsInv r) (hm : minSizePx r d) :
    boundsInv (applyDrags ops r d) ∧ minSizePx (applyDrags ops r d) d := by
  induction ops generalizing r with
  | nil => exact ⟨hb, hm⟩
  | cons op rest ih =>
    have h := dragStep_preserves op.1 op.2.1 op.2.2 hW hH hb hm
    simpa only [applyDrags, List.foldl_cons] using ih h.1 h.2

/-- C1 witness: a concrete move drag on a 100×100 page. -/
theorem drag_sequence_invariant_witness :
    boundsInv (applyDrags [(DragMode.move, 5, 5)] ⟨0, 0, 1 / 4, 1 / 4⟩ ⟨100, 100⟩) ∧
      minSizePx (applyDrags [(DragMode.move, 5, 5)] ⟨0, 0, 1 / 4, 1 / 4⟩ ⟨100, 100⟩)
        ⟨100, 100⟩ :=
  drag_sequence_invariant [(DragMode.move, 5, 5)] (by norm_num) (by norm_num)
    (by refine ⟨le_refl 0, le_refl 0, ?_, ?_⟩ <;> norm_num)
    (by constructor <;> norm_num [MIN_SIZE])

/-- C1 counterexample: the claim as stated is false.  The rect
`{x:0, y:0, w:1/20, h:1/2}` on a 100×100 page satisfies the page-bounds
invariant, but its pixel width is 5 < MIN_SIZE, so a single `resize-sw`
drag (even with zero pointer delta) clamps into an inverted interval and
stores a negative `x`. -/
theorem drag_invariant_claim_false :
    boundsInv ⟨0, 0, 1 / 20, 1 / 2⟩ ∧
      (applyDrags [(DragMode.resizeSW, 0, 0)] ⟨0, 0, 1 / 20, 1 / 2⟩ ⟨100, 100⟩).x < 0 := by
  constructor
  · refine ⟨le_refl 0, le_refl 0, ?_, ?_⟩ <;> norm_num
  · norm_num [applyDrags, dragStep, dragStepPx, percentageToPixels, pixelsToPercentage,
      clamp, MIN_SIZE, min_def, max_def]

/-- C10: `clamp` with an inverted interval (`min > max`) returns the upper
argument regardless of the value; consequently a move drag of a field whose
pixel width exceeds the page width writes `x = pageWidth − w < 0`, and
symmetrically for the height. -/
theorem clamp_inverted_and_oversized_move :
    (∀ value lo hi : ℚ, hi < lo → clamp value lo hi = hi) ∧
      (∀ (r : FieldRect) (dx dy : ℚ) (d : PageDimensions), d.width < r.w →
        (dragStepPx DragMode.move r dx dy d).x = d.width - r.w ∧ d.width - r.w < 0) ∧
      (∀ (r : FieldRect) (dx dy : ℚ) (d : PageDimensions), d.height < r.h →
        (dragStepPx DragMode.move r dx dy d).y = d.height - r.h ∧ d.height - r.h < 0) := by
  have hc : ∀ value lo hi : ℚ, hi < lo → clamp value lo hi = hi := by
    intro v lo hi h
    exact min_eq_right (le_trans h.le (le_max_right v lo))
  refine ⟨hc, ?_, ?_⟩
  · intro r dx dy d h
    refine ⟨?_, by linarith⟩
    show clamp (r.x + dx) 0 (d.width - r.w) = d.width - r.w
    exact hc _ _ _ (by linarith)
  · intro r dx dy d h
    refine ⟨?_, by linarith⟩
    show clamp (r.y + dy) 0 (d.height - r.h) = d.height - r.h
    exact hc _ _ _ (by linarith)

/-- C10 witness: a 150-pixel-wide rect moved on a 100-pixel-wide page ends
at `x = -50`. -/
theorem clamp_inverted_and_oversized_move_witness :
    clamp 7 0 (-3 : ℚ) = -3 ∧
      (dragStepPx DragMode.move ⟨0, 0, 150, 10⟩ 1 1 ⟨100, 100⟩).x = 100 - 150 ∧
      ((100 : ℚ) - 150 < 0) :=
  ⟨clamp_inverted_and_oversized_move.1 7 0 (-3) (by norm_num),
    (clamp_inverted_and_oversized_move.2.1 ⟨0, 0, 150, 10⟩ 1 1 ⟨100, 100⟩ (by norm_num)).1,
    (clamp_inverted_and_oversized_move.2.1 ⟨0, 0, 150, 10⟩ 1 1 ⟨100, 100⟩ (by norm_num)).2⟩

/-- C2: converting a pixel rect to normalized space and back with the same
positive page dimensions returns the original rect (exactly over ℚ, hence
certainly within the claimed 1e-6 relative tolerance). -/
theorem roundtrip_identity (pixelRect : FieldRect) (pageDims : PageDimensions)
    (hW : 0 < pageDims.width) (hH : 0 < pageDims.height) :
    percentageToPixels (pixelsToPercentage pixelRect pageDims) pageDims = pixelRect := by
  simp only [pixelsToPercentage, percentageToPixels]
  cases pixelRect with
  | mk x y w h =>
    simp only [FieldRect.mk.injEq]
    refine ⟨?_, ?_, ?_, ?_⟩ <;>
      apply div_mul_cancel₀ <;> positivity

/-- C2 witness: the round trip at a concrete rect and page size. -/
theorem roundtrip_identity_witness :
    percentageToPixels (pixelsToPercentage ⟨3, 4, 5, 6⟩ ⟨10, 20⟩) ⟨10, 20⟩ =
      (⟨3, 4, 5, 6⟩ : FieldRect) :=
  roundtrip_identity ⟨3, 4, 5, 6⟩ ⟨10, 20⟩ (by norm_num) (by norm_num)

/-- C3 counterexample: the claim states `y1 = (y + w) · H`; the code computes
`y1 = (y + h) · H`.  At rect `{0, 0, 1/2, 1/4}` on a 1×1 page the code gives
`y1 = 1/4` while the claimed formula gives `1/2`. -/
theorem pdf_coords_y1_claim_false :
    (percentageToPDFCoords ⟨0, 0, 1 / 2, 1 / 4⟩ ⟨1, 1⟩).y1 ≠
      (((0 : ℚ) + 1 / 2) * 1) := by
  norm_num [percentageToPDFCoords]

/-- C3 (amended): `percentageToPDFCoords` maps rect `{x,y,w,h}` and page
`{W,H}` to `x0 = x·W`, `y0 = y·H`, `x1 = (x+w)·W`, `y1 = (y+h)·H`. -/
theorem pdf_coords_spec (r : FieldRect) (d : PageDimensions) :
    percentageToPDFCoords r d =
      ⟨r.x * d.width, r.y * d.height, (r.x + r.w) * d.width, (r.y + r.h) * d.height⟩ :=
  rfl

/-- C4 counterexample: `setFields` replaces the field list but leaves
`selectedFieldId` untouched, so a registry operation can leave the
selection referencing a non-existent field.  Start with one selected field
and import an empty list. -/
theorem set_fields_breaks_selection :
    selectionConsistent
        ⟨[⟨"a", "k", FieldType.text, 1, none, ⟨0, 0, 1 / 10, 1 / 10⟩⟩], some "a"⟩ ∧
      ¬ selectionConsistent
        (setFields []
          ⟨[⟨"a", "k", FieldType.text, 1, none, ⟨0, 0, 1 / 10, 1 / 10⟩⟩], some "a"⟩) := by
  constructor
  · intro i hi
    injection hi with h
    subst h
    exact ⟨_, List.mem_singleton_self _, rfl⟩
  · intro hcon
    obtain ⟨f, hf, -⟩ := hcon "a" rfl
    simp [setFields] at hf

/-- C4 (amended): selection consistency is preserved by `addField`, by
`updateField` whenever the partial update does not rewrite the id, and by
`removeField`; `removeField` of the selected id clears the selection and of
a non-selected id leaves it unchanged; `setFields` leaves `selectedFieldId`
unchanged (and hence, as the counterexample shows, may leave it dangling). -/
theorem registry_selection_consistency :
    (∀ (st : RegistryState) (f : Field), selectionConsistent st →
        selectionConsistent (addField f st)) ∧
      (∀ (st : RegistryState) (fid : String) (u : FieldUpdate), u.id = none →
        selectionConsistent st → selectionConsistent (updateField fid u st)) ∧
      (∀ (st : RegistryState) (fid : String), selectionConsistent st →
        selectionConsistent (removeField fid st)) ∧
      (∀ (st : RegistryState) (fid : String), st.selectedFieldId = some fid →
        (removeField fid st).selectedFieldId = none) ∧
      (∀ (st : RegistryState) (fid : String), st.selectedFieldId ≠ some fid →
        (removeField fid st).selectedFieldId = st.selectedFieldId) ∧
      (∀ (st : RegistryState) (fs : List Field),
        (setFields fs st).selectedFieldId = st.selectedFieldId) := by
  refine ⟨?_, ?_, ?_, ?_, ?_, ?_⟩
  · intro st f h i hi
    obtain ⟨g, hg, hgid⟩ := h i hi
    exact ⟨g, List.mem_append_left _ hg, hgid⟩
  · intro st fid u hu h i hi
    obtain ⟨g, hg, hgid⟩ := h i hi
    refine ⟨if g.id = fid then applyUpdate u g else g, List.mem_map_of_mem _ hg, ?_⟩
    by_cases h' : g.id = fid
    · rw [if_pos h']
      simp only [applyUpdate, hu, Option.getD_none]
      exact hgid
    · rw [if_neg h']
      exact hgid
  · intro st fid h i hi
    by_cases hsel : st.selectedFieldId = some fid
    · simp [removeField, hsel] at hi
    · have hi' : st.selectedFieldId = some i := by
        simpa [removeField, hsel] using hi
      obtain ⟨g, hg, hgid⟩ := h i hi'
      refine ⟨g, List.mem_filter.2 ⟨hg, ?_⟩, hgid⟩
      simp only [ne_eq, decide_not, Bool.not_eq_true', decide_eq_false_iff_not]
      intro heq
      exact hsel (by rw [hi', ← hgid, heq])
  · intro st fid h
    simp [removeField, h]
  · intro st fid h
    simp [removeField, h]
  · intro st fs
    rfl

/-- C4 witness: removing the selected field of a concrete one-field registry
clears the selection and keeps consistency. -/
theorem registry_selection_consistency_witness :
    selectionConsistent
        (removeField "a"
          ⟨[⟨"a", "k", FieldType.text, 1, none, ⟨0, 0, 1 / 10, 1 / 10⟩⟩], some "a"⟩) ∧
      (removeField "a"
          ⟨[⟨"a", "k", FieldType.text, 1, none, ⟨0, 0, 1 / 10, 1 / 10⟩⟩],
            some "a"⟩).selectedFieldId = none :=
  ⟨registry_selection_consistency.2.2.1 _ "a"
      (by
        intro i hi
        injection hi with h
        subst h
        exact ⟨_, List.mem_singleton_self _, rfl⟩),
    registry_selection_consistency.2.2.2.1 _ "a" rfl⟩

theorem updateFieldList_eq_map (fs : List Field) (fid : String) (u : FieldUpdate) :
    updateFieldList fs fid u = fs.map fun f => if f.id = fid then applyUpdate u f else f :=
  rfl

/-- Folding keyed list updates commutes with mapping each element through
the whole update sequence. -/
theorem foldl_update_eq_map (val : Field → FieldUpdate) (l A : List Field) :
    l.foldl (fun fs f => updateFieldList fs f.id (val f)) A =
      A.map fun g => l.foldl (fun x f => if x.id = f.id then applyUpdate (val f) x else x) g := by
  induction l generalizing A with
  | nil => simp
  | cons f l ih =>
    rw [List.foldl_cons, ih, updateFieldList_eq_map, List.map_map]
    rfl

/-- An element whose id is hit by no update in the sequence is unchanged. -/
theorem foldl_update_skip (val : Field → FieldUpdate) (g : Field) (l : List Field)
    (h : ∀ f ∈ l, f.id ≠ g.id) :
    l.foldl (fun x f => if x.id = f.id then applyUpdate (val f) x else x) g = g := by
  induction l with
  | nil => rfl
  | cons f l ih
  =>
    rw [List.foldl_cons, if_neg (fun e => h f (List.mem_cons_self f l) e.symm)]
    exact ih fun f' hf' => h f' (List.mem_cons_of_mem _ hf')

/-- An element hit by exactly one update in the sequence (and whose id the
update keeps) receives exactly that update. -/
theorem foldl_update_hit (val : Field → FieldUpdate) (g : Field) (l₁ l₂ : List Field)
    (hkeep : (applyUpdate (val g) g).id = g.id)
    (h1 : ∀ f ∈ l₁, f.id ≠ g.id) (h2 : ∀ f ∈ l₂, f.id ≠ g.id) :
    (l₁ ++ g :: l₂).foldl (fun x f => if x.id = f.id then applyUpdate (val f) x else x) g =
      applyUpdate (val g) g := by
  induction l₁ with
  | nil =>
    rw [List.nil_append, List.foldl_cons, if_pos rfl]
    exact foldl_update_skip val _ l₂ fun f hf => by rw [hkeep]; exact h2 f hf
  | cons f l ih
  =>
    rw [List.cons_append, List.foldl_cons,
      if_neg (fun e => h1 f (List.mem_cons_self f l) e.symm)]
    exact ih fun f' hf' => h1 f' (List.mem_cons_of_mem _ hf')

theorem findField_spec {l : List Field} {sid : String} {sel : Field}
    (h : findField l sid = some sel) : sel ∈ l ∧ sel.id = sid := by
  induction l with
  | nil => simp [findField] at h
  | cons f fs ih
  =>
    by_cases hf : f.id = sid
    · rw [findField, if_pos hf] at h
      injection h with h
      subst h
      exact ⟨List.mem_cons_self _ _, hf⟩
    · rw [findField, if_neg hf] at h
      obtain ⟨h1, h2⟩ := ih h
      exact ⟨List.mem_cons_of_mem _ h1, h2⟩

theorem mem_fieldsOnPageExcept {l : List Field} {p : Int} {sid : String} {f : Field} :
    f ∈ fieldsOnPageExcept l p sid ↔ f ∈ l ∧ f.page_number = p ∧ f.id ≠ sid := by
  induction l with
  | nil => simp [fieldsOnPageExcept]
  | cons g gs ih
  =>
    by_cases hg : g.page_number = p ∧ g.id ≠ sid
    · rw [fieldsOnPageExcept, if_pos hg]
      simp only [List.mem_cons, ih]
      constructor
      · rintro (rfl | ⟨h1, h2⟩)
        · exact ⟨Or.inl rfl, hg⟩
        · exact ⟨Or.inr h1, h2⟩
      · rintro ⟨(rfl | h1), h2⟩
        · exact Or.inl rfl
        · exact Or.inr ⟨h1, h2⟩
    · rw [fieldsOnPageExcept, if_neg hg]
      simp only [List.mem_cons, ih]
      constructor
      · rintro ⟨h1, h2⟩
        exact ⟨Or.inr h1, h2⟩
      · rintro ⟨(rfl | h1), h2⟩
        · exact absurd h2 hg
        · exact ⟨h1, h2⟩

theorem fieldsOnPageExcept_sublist (l : List Field) (p : Int) (sid : String) :
    List.Sublist (fieldsOnPageExcept l p sid) l := by
  induction l with
  | nil => exact List.Sublist.refl _
  | cons g gs ih
  =>
    rw [fieldsOnPageExcept]
    by_cases hg : g.page_number = p ∧ g.id ≠ sid
    · rw [if_pos hg]
      exact ih.cons₂ g
    · rw [if_neg hg]
      exact ih.cons g

/-- The fields characterization of `handleApplyToAll`: with pairwise
distinct field ids, every other field on the selected field's page receives
exactly the copied dimensions and every remaining field is untouched. -/
theorem applyToAll_fields_eq (prop : ApplyProp) (st : RegistryState) (sid : String)
    (sel : Field) (hnd : (st.fields.map Field.id).Nodup)
    (hsel : st.selectedFieldId = some sid)
    (hfind : findField st.fields sid = some sel) :
    (handleApplyToAll prop st).fields =
      st.fields.map fun g =>
        if g.page_number = sel.page_number ∧ g.id ≠ sel.id
        then { g with rect := applyWH prop sel.rect g.rect } else g := by
  have hinj := List.inj_on_of_nodup_map hnd
  have key : ∀ g ∈ st.fields,
      (fieldsOnPageExcept st.fields sel.page_number sel.id).foldl
        (fun x f => if x.id = f.id
          then applyUpdate (rectUpdate (applyWH prop sel.rect f.rect)) x else x) g =
      (if g.page_number = sel.page_number ∧ g.id ≠ sel.id
        then { g with rect := applyWH prop sel.rect g.rect } else g) := by
    intro g hg
    by_cases hP : g.page_number = sel.page_number ∧ g.id ≠ sel.id
    · -- g is a recipient: it occurs exactly once in the samePage list
      have hmem : g ∈ fieldsOnPageExcept st.fields sel.page_number sel.id :=
        mem_fieldsOnPageExcept.2 ⟨hg, hP⟩
      obtain ⟨l₁, l₂, hsplit⟩ := List.append_of_mem hmem
      have hndsp : ((fieldsOnPageExcept st.fields sel.page_number sel.id).map Field.id).Nodup :=
        List.Nodup.sublist
          (List.Sublist.map Field.id (fieldsOnPageExcept_sublist st.fields sel.page_number sel.id))
          hnd
      rw [hsplit] at hndsp
      have hndsp' : (g.id :: (l₁.map Field.id ++ l₂.map Field.id)).Nodup := by
        rw [← List.nodup_middle]
        simpa using hndsp
      have hnotin := (List.nodup_cons.1 hndsp').1
      have h1 : ∀ f ∈ l₁, f.id ≠ g.id := by
        intro f hf e
        exact hnotin (List.mem_append_left _ (e ▸ List.mem_map_of_mem Field.id hf))
      have h2 : ∀ f ∈ l₂, f.id ≠ g.id := by
        intro f hf e
        exact hnotin (List.mem_append_right _ (e ▸ List.mem_map_of_mem Field.id hf))
      rw [hsplit, if_pos hP]
      exact foldl_update_hit _ g l₁ l₂ rfl h1 h2
    · -- g is not a recipient: no update in the samePage list targets its id
      rw [if_neg hP]
      apply foldl_update_skip
      intro f hf e
      obtain ⟨hfmem, hfP⟩ := mem_fieldsOnPageExcept.1 hf
      exact hP (by rw [← hinj hfmem hg e]; exact hfP)
  simp only [handleApplyToAll, hsel, hfind]
  rw [foldl_update_eq_map]
  exact List.map_congr_left key

/-- C9: with a selected field and pairwise distinct ids, the bulk apply
operation copies `w` and/or `h` from the selected field precisely onto the
other fields of its page (`x`, `y` and all non-rect attributes untouched,
other pages and the selected field itself unchanged), and the recipients
are not re-clamped: in the concrete `overflowState` a recipient ends with
`x + w > 1`. -/
theorem apply_to_all_spec (prop : ApplyProp) (st : RegistryState) (sid : String)
    (sel : Field) (hnd : (st.fields.map Field.id).Nodup)
    (hsel : st.selectedFieldId = some sid)
    (hfind : findField st.fields sid = some sel) :
    ((handleApplyToAll prop st).fields =
      st.fields.map fun g =>
        if g.page_number = sel.page_number ∧ g.id ≠ sel.id
        then { g with rect := applyWH prop sel.rect g.rect } else g) ∧
    (handleApplyToAll prop st).selectedFieldId = st.selectedFieldId ∧
    (∀ t : FieldRect, (applyWH prop sel.rect t).x = t.x ∧ (applyWH prop sel.rect t).y = t.y) ∧
    (prop = ApplyProp.w → ∀ t : FieldRect, (applyWH prop sel.rect t).h = t.h) ∧
    (prop = ApplyProp.h → ∀ t : FieldRect, (applyWH prop sel.rect t).w = t.w) ∧
    (∃ g ∈ (handleApplyToAll ApplyProp.w overflowState).fields, 1 < g.rect.x + g.rect.w) := by
  refine ⟨applyToAll_fields_eq prop st sid sel hnd hsel hfind, ?_, ?_, ?_, ?_, ?_⟩
  · simp only [handleApplyToAll, hsel, hfind]
  · intro t
    exact ⟨rfl, rfl⟩
  · rintro rfl t
    simp [applyWH]
  · rintro rfl t
    simp [applyWH]
  · have h := applyToAll_fields_eq ApplyProp.w overflowState "a" overflowSel (by decide) rfl rfl
    rw [h]
    have hmem : overflowRecipient ∈ overflowState.fields := by
      simp [overflowState]
    refine ⟨_, List.mem_map_of_mem _ hmem, ?_⟩
    rw [if_pos (by refine ⟨rfl, by decide⟩)]
    norm_num [overflowRecipient, overflowSel, applyWH]

/-- C9 witness: the characterization applied to the concrete two-field
registry. -/
theorem apply_to_all_spec_witness :
    (handleApplyToAll ApplyProp.w overflowState).fields =
      overflowState.fields.map fun g =>
        if g.page_number = overflowSel.page_number ∧ g.id ≠ overflowSel.id
        then { g with rect := applyWH ApplyProp.w overflowSel.rect g.rect } else g :=
  (apply_to_all_spec ApplyProp.w overflowState "a" overflowSel (by decide) rfl rfl).1

/-- C8: on pointer-up during a drawing gesture on a page with known
dimensions, the normalized rect is computed via `normalizeRect` then
`pixelsToPercentage`; viability is exactly `w ≥ 1/100 ∧ h ≥ 1/100`; a
viable rect appends a new selected text field with the auto-generated key
`field_<n+1>`, a non-viable one changes neither the field list nor the
selection; the drawing state is reset in both cases. -/
theorem mouse_up_spec (st : EditorState) (pageNumber : Int) (newId : String)
    (dims : PageDimensions) (hdims : st.pageDimensions pageNumber = some dims)
    (hdraw : st.drawingState.isDrawing = true)
    (hpage : st.drawingState.pageNumber = pageNumber) :
    (isValidFieldSize (drawnRect st dims) = true ↔
      (1 / 100 ≤ (drawnRect st dims).w ∧ 1 / 100 ≤ (drawnRect st dims).h)) ∧
    (isValidFieldSize (drawnRect st dims) = true →
      (handleMouseUp pageNumber newId st).fields =
        st.fields ++ [{ id := newId, key := "field_" ++ toString (st.fields.length + 1)
                        type := FieldType.text, page_number := pageNumber, fontSize := none
                        rect := drawnRect st dims }] ∧
      (handleMouseUp pageNumber newId st).selectedFieldId = some newId ∧
      (handleMouseUp pageNumber newId st).drawingState = initialDrawingState) ∧
    (isValidFieldSize (drawnRect st dims) = false →
      (handleMouseUp pageNumber newId st).fields = st.fields ∧
      (handleMouseUp pageNumber newId st).selectedFieldId = st.selectedFieldId ∧
      (handleMouseUp pageNumber newId st).drawingState = initialDrawingState) := by
  have hred : handleMouseUp pageNumber newId st =
      (if isValidFieldSize (drawnRect st dims) then
        { st with
          fields := st.fields ++ [{ id := newId
                                    key := "field_" ++ toString (st.fields.length + 1)
                                    type := FieldType.text, page_number := pageNumber
                                    fontSize := none, rect := drawnRect st dims }]
          selectedFieldId := some newId
          drawingState := initialDrawingState }
      else { st with drawingState := initialDrawingState }) := by
    simp only [handleMouseUp, hdims, drawnRect]
    rw [if_pos ⟨hdraw, hpage⟩]
  refine ⟨?_, ?_, ?_⟩
  · simp [isValidFieldSize, MIN_FIELD_SIZE_PERCENT]
  · intro hvalid
    rw [hred, if_pos hvalid]
    exact ⟨rfl, rfl, rfl⟩
  · intro hvalid
    rw [hred, if_neg (by rw [hvalid]; exact Bool.false_ne_true)]
    exact ⟨rfl, rfl, rfl⟩

/-- C8 witness: a 50×50-pixel drag on a 100×100 page creates the selected
field `field_1`. -/
theorem mouse_up_spec_witness :
    (handleMouseUp 1 "id1" exEditorState).fields =
      exEditorState.fields ++ [{ id := "id1"
                                 key := "field_" ++ toString (exEditorState.fields.length + 1)
                                 type := FieldType.text, page_number := 1, fontSize := none
                                 rect := drawnRect exEditorState ⟨100, 100⟩ }] ∧
      (handleMouseUp 1 "id1" exEditorState).selectedFieldId = some "id1" :=
  have h := (mouse_up_spec exEditorState 1 "id1" ⟨100, 100⟩ rfl rfl rfl).2.1
    (by norm_num [drawnRect, isValidFieldSize, MIN_FIELD_SIZE_PERCENT, exEditorState,
      normalizeRect, pixelsToPercentage, initialDrawingState, min_def, abs])
  ⟨h.1, h.2.1⟩

theorem generate_append (l₁ l₂ : List Field) (pages : List PageDimensions)
    (data : String → Option JSValue) :
    generate (l₁ ++ l₂) pages data = generate l₁ pages data ++ generate l₂ pages data := by
  induction l₁ with
  | nil => rfl
  | cons f fs ih => simp [generate, ih]

theorem nthPage_exists (l : List PageDimensions) (n : Nat) (h : n < l.length) :
    ∃ d, nthPage l n = some d := by
  induction l generalizing n with
  | nil => simp at h
  | cons d ds ih
  =>
    cases n with
    | zero => exact ⟨d, rfl⟩
    | succ n => exact ih n (by simpa using h)

/-- A field whose value is absent, null or empty contributes nothing. -/
theorem instrForField_skip (pages : List PageDimensions) (data : String → Option JSValue)
    (f : Field)
    (h : data f.key = none ∨ data f.key = some JSValue.null ∨
      data f.key = some (JSValue.str "")) :
    instrForField pages data f = [] := by
  rcases h with h | h | h
  · simp [instrForField, h]
  · simp [instrForField, h]
  · simp [instrForField, h]

/-- A present, non-null, non-empty value on an in-range page yields exactly
the instruction of the corresponding branch. -/
theorem instrForField_active (pages : List PageDimensions) (data : String → Option JSValue)
    (f : Field) (v : JSValue) (d : PageDimensions) (hdata : data f.key = some v)
    (hv1 : v ≠ JSValue.null) (hv2 : v ≠ JSValue.str "") (hpn : 1 ≤ f.page_number)
    (hd : nthPage pages (f.page_number - 1).toNat = some d) :
    instrForField pages data f =
      (if f.type = FieldType.checkbox then
        (if jsToLower (jsToString v) = "true" ∨ v = JSValue.bool true then
          [{ page_number := f.page_number, kind := InstrKind.mark
             x := f.rect.x * d.width + 2
             y := d.height - f.rect.y * d.height - fontSizeLookup f.fontSize - 2
             size := fontSizeLookup f.fontSize, content := "X"
             maxWidth := none, lineHeight := none }]
        else [])
      else
        [{ page_number := f.page_number, kind := InstrKind.text
           x := f.rect.x * d.width + 2
           y := d.height - f.rect.y * d.height - fontSizeLookup f.fontSize - 2
           size := fontSizeLookup f.fontSize, content := jsToString v
           maxWidth := some (f.rect.w * d.width - 4)
           lineHeight := some (fontSizeLookup f.fontSize * 1.2) }]) := by
  simp only [instrForField, hdata]
  rw [if_neg (by rintro (h | h) <;> [exact hv1 h; exact hv2 h])]
  rw [if_neg (by simp only [not_lt]; linarith)]
  simp only [hd]

/-- C5: a field whose data value is absent, null or the empty string emits
no instruction wherever it occurs in the field list (and generation raises
no error: it is total); a text field with a present non-empty value on an
in-range page emits exactly one text instruction for its page number. -/
theorem generation_skip_rule :
    (∀ (l₁ l₂ : List Field) (f : Field) (pages : List PageDimensions)
        (data : String → Option JSValue),
      (data f.key = none ∨ data f.key = some JSValue.null ∨
        data f.key = some (JSValue.str "")) →
      generate (l₁ ++ f :: l₂) pages data = generate (l₁ ++ l₂) pages data) ∧
    (∀ (f : Field) (pages : List PageDimensions) (data : String → Option JSValue)
        (v : JSValue), f.type = FieldType.text → data f.key = some v →
      v ≠ JSValue.null → v ≠ JSValue.str "" →
      1 ≤ f.page_number → f.page_number ≤ (pages.length : Int) →
      ∃ i, generate [f] pages data = [i] ∧ i.kind = InstrKind.text ∧
        i.page_number = f.page_number) := by
  constructor
  · intro l₁ l₂ f pages data h
    rw [generate_append l₁ (f :: l₂), generate_append l₁ l₂]
    have hskip : instrForField pages data f = [] := instrForField_skip pages data f h
    simp [generate, hskip]
  · intro f pages data v htype hdata hv1 hv2 hpn hlen
    have hidx : (f.page_number - 1).toNat < pages.length := by omega
    obtain ⟨d, hd⟩ := nthPage_exists pages _ hidx
    have h := instrForField_active pages data f v d hdata hv1 hv2 hpn hd
    rw [if_neg (by rw [htype]; exact fun hc => FieldType.noConfusion hc)] at h
    have hgen : generate [f] pages data =
        [{ page_number := f.page_number, kind := InstrKind.text
           x := f.rect.x * d.width + 2
           y := d.height - f.rect.y * d.height - fontSizeLookup f.fontSize - 2
           size := fontSizeLookup f.fontSize, content := jsToString v
           maxWidth := some (f.rect.w * d.width - 4)
           lineHeight := some (fontSizeLookup f.fontSize * 1.2) }] := by
      simp [generate, h]
    exact ⟨_, hgen, rfl, rfl⟩

/-- C5 witness: the spec's test — an empty-string value emits nothing, a
non-empty value emits exactly one text instruction for the field's page. -/
theorem generation_skip_rule_witness :
    generate [{ id := "i1", key := "x", type := FieldType.text, page_number := 1
                fontSize := none, rect := ⟨0, 0, 1 / 10, 1 / 10⟩ }] [⟨600, 800⟩]
        (fun k => if k = "x" then some (JSValue.str "") else none) =
      generate [] [⟨600, 800⟩] (fun k => if k = "x" then some (JSValue.str "") else none) ∧
    ∃ i, generate [{ id := "i1", key := "x", type := FieldType.text, page_number := 1
                     fontSize := none, rect := ⟨0, 0, 1 / 10, 1 / 10⟩ }] [⟨600, 800⟩]
        (fun k => if k = "x" then some (JSValue.str "value") else none) = [i] ∧
      i.kind = InstrKind.text ∧ i.page_number = 1 :=
  ⟨generation_skip_rule.1 [] [] _ [⟨600, 800⟩] _ (Or.inr (Or.inr rfl)),
    generation_skip_rule.2 _ [⟨600, 800⟩] _ (JSValue.str "value") rfl rfl
      (by decide) (by decide) (by decide) (by decide)⟩

theorem digitChar_lower {d : Nat} (h : d < 10) :
    Char.toLower (digitChar d) = digitChar d ∧ digitChar d ≠ 't' := by
  interval_cases d <;> exact ⟨by decide, by decide⟩

theorem natDigits_chars {n : Nat} {c : Char} (h : c ∈ natDigits n) :
    ∃ d, d < 10 ∧ c = digitChar d := by
  unfold natDigits at h
  by_cases h0 : n = 0
  · rw [if_pos h0] at h
    simp only [List.mem_singleton] at h
    exact ⟨0, by norm_num, by rw [h]; rfl⟩
  · rw [if_neg h0, List.mem_reverse] at h
    obtain ⟨d, hd, rfl⟩ := List.mem_map.1 h
    exact ⟨d, Nat.digits_lt_base (by norm_num) hd, rfl⟩

/-- Every character of a rendered number is fixed by lowering and is not
the letter `t`. -/
theorem ratToString_chars {q : ℚ} {c : Char} (h : c ∈ (ratToString q).data) :
    Char.toLower c = c ∧ c ≠ 't' := by
  have h' : c ∈ (if q < 0 then ['-'] else []) ++ natDigits q.num.natAbs ++
      (if q.den = 1 then [] else '/' :: natDigits q.den) := h
  rcases List.mem_append.1 h' with h1 | h2
  · rcases List.mem_append.1 h1 with h3 | h4
    · by_cases hq : q < 0
      · rw [if_pos hq] at h3
        simp only [List.mem_singleton] at h3
        subst h3
        exact ⟨by decide, by decide⟩
      · rw [if_neg hq] at h3
        simp at h3
    · obtain ⟨d, hd, rfl⟩ := natDigits_chars h4
      exact digitChar_lower hd
  · by_cases hq : q.den = 1
    · rw [if_pos hq] at h2
      simp at h2
    · rw [if_neg hq] at h2
      rcases List.mem_cons.1 h2 with rfl | h5
      · exact ⟨by decide, by decide⟩
      · obtain ⟨d, hd, rfl⟩ := natDigits_chars h5
        exact digitChar_lower hd

/-- `String(number).toLowerCase()` is never the string `"true"`. -/
theorem ratToString_ne_true (q : ℚ) : jsToLower (ratToString q) ≠ "true" := by
  intro hEq
  have hdata : (ratToString q).data.map Char.toLower = "true".data :=
    congrArg String.data hEq
  have htrue : "true".data = ['t', 'r', 'u', 'e'] := rfl
  rw [htrue] at hdata
  cases hl : (ratToString q).data with
  | nil =>
    rw [hl] at hdata
    simp at hdata
  | cons c cs
  =>
    rw [hl] at hdata
    simp only [List.map_cons] at hdata
    injection hdata with h1 h2
    have hmem : c ∈ (ratToString q).data := by
      rw [hl]
      exact List.mem_cons_self _ _
    obtain ⟨hfix, hne⟩ := ratToString_chars hmem
    rw [hfix] at h1
    exact hne h1

/-- The source's checkbox test
`String(value).toLowerCase() === 'true' || value === true`
holds exactly for boolean `true` and case-insensitive `"true"` strings. -/
theorem checkbox_cond_iff (v : JSValue) (hv1 : v ≠ JSValue.null) :
    (jsToLower (jsToString v) = "true" ∨ v = JSValue.bool true) ↔
      (v = JSValue.bool true ∨ ∃ s, v = JSValue.str s ∧ jsToLower s = "true") := by
  constructor
  · rintro (h | h)
    · cases v with
      | str s => exact Or.inr ⟨s, rfl, h⟩
      | bool b =>
        cases b with
        | true => exact Or.inl rfl
        | false => exact absurd h (by decide)
      | num q => exact absurd h (ratToString_ne_true q)
      | null => exact absurd rfl hv1
    · exact Or.inl h
  · rintro (rfl | ⟨s, rfl, hs⟩)
    · exact Or.inr rfl
    · exact Or.inl hs

/-- C6: a checkbox field with a present, non-null, non-empty value on an
in-range page emits a mark instruction exactly when the value is boolean
`true` or a case-insensitively `"true"` string; every other value (however
truthy-looking) emits nothing. -/
theorem checkbox_strictness (f : Field) (pages : List PageDimensions)
    (data : String → Option JSValue) (v : JSValue)
    (htype : f.type = FieldType.checkbox) (hdata : data f.key = some v)
    (hv1 : v ≠ JSValue.null) (hv2 : v ≠ JSValue.str "")
    (hpn : 1 ≤ f.page_number) (hlen : f.page_number ≤ (pages.length : Int)) :
    ((∃ i, generate [f] pages data = [i] ∧ i.kind = InstrKind.mark) ↔
      (v = JSValue.bool true ∨ ∃ s, v = JSValue.str s ∧ jsToLower s = "true")) ∧
    (¬(v = JSValue.bool true ∨ ∃ s, v = JSValue.str s ∧ jsToLower s = "true") →
      generate [f] pages data = []) := by
  have hidx : (f.page_number - 1).toNat < pages.length := by omega
  obtain ⟨d, hd⟩ := nthPage_exists pages _ hidx
  have h := instrForField_active pages data f v d hdata hv1 hv2 hpn hd
  rw [if_pos htype] at h
  by_cases hc : jsToLower (jsToString v) = "true" ∨ v = JSValue.bool true
  · rw [if_pos hc] at h
    have hrhs := (checkbox_cond_iff v hv1).1 hc
    constructor
    · refine ⟨fun _ => hrhs, fun _ => ?_⟩
      exact ⟨{ page_number := f.page_number, kind := InstrKind.mark
               x := f.rect.x * d.width + 2
               y := d.height - f.rect.y * d.height - fontSizeLookup f.fontSize - 2
               size := fontSizeLookup f.fontSize, content := "X"
               maxWidth := none, lineHeight := none },
        by simp [generate, h], rfl⟩
    · intro hn
      exact absurd hrhs hn
  · rw [if_neg hc] at h
    have hempty : generate [f] pages data = [] := by simp [generate, h]
    constructor
    · constructor
      · rintro ⟨i, hi, -⟩
        rw [hempty] at hi
        exact absurd hi (by simp)
      · intro hrhs
        exact absurd ((checkbox_cond_iff v hv1).2 hrhs) hc
    · intro _
      exact hempty

/-- C6 witness: the spec's test — value `"TRUE"` emits a mark, value
`"yes"` emits none. -/
theorem checkbox_strictness_witness :
    (∃ i, generate [{ id := "i2", key := "c", type := FieldType.checkbox, page_number := 1
                      fontSize := none, rect := ⟨0, 0, 1 / 10, 1 / 10⟩ }] [⟨600, 800⟩]
        (fun k => if k = "c" then some (JSValue.str "TRUE") else none) = [i] ∧
      i.kind = InstrKind.mark) ∧
    generate [{ id := "i2", key := "c", type := FieldType.checkbox, page_number := 1
                fontSize := none, rect := ⟨0, 0, 1 / 10, 1 / 10⟩ }] [⟨600, 800⟩]
      (fun k => if k = "c" then some (JSValue.str "yes") else none) = [] :=
  ⟨(checkbox_strictness _ [⟨600, 800⟩] _ (JSValue.str "TRUE") rfl rfl (by decide)
      (by decide) (by decide) (by decide)).1.2
    (Or.inr ⟨"TRUE", rfl, by decide⟩),
    (checkbox_strictness _ [⟨600, 800⟩] _ (JSValue.str "yes") rfl rfl (by decide)
      (by decide) (by decide) (by decide)).2
    (by
      rintro (h | ⟨s, hs, hlow⟩)
      · exact JSValue.noConfusion h
      · injection hs with hs
        subst hs
        exact absurd hlow (by decide))⟩

/-- C7: every emitted text instruction is placed at
`x = rect.x·W + 2`, `y = H − rect.y·H − fontSizePt − 2`, with
`maxWidth = rect.w·W − 4` and `lineHeight = fontSizePt·1.2`, the padding
constant being 2; `fontSizePt` comes from the lookup small→7, medium→9,
large→12 with unset defaulting to medium. -/
theorem text_instruction_layout (f : Field) (pages : List PageDimensions)
    (data : String → Option JSValue) (v : JSValue) (d : PageDimensions)
    (htype : f.type = FieldType.text ∨ f.type = FieldType.date)
    (hdata : data f.key = some v) (hv1 : v ≠ JSValue.null) (hv2 : v ≠ JSValue.str "")
    (hpn : 1 ≤ f.page_number)
    (hd : nthPage pages (f.page_number - 1).toNat = some d) :
    generate [f] pages data =
      [{ page_number := f.page_number, kind := InstrKind.text
         x := f.rect.x * d.width + 2
         y := d.height - f.rect.y * d.height - fontSizeLookup f.fontSize - 2
         size := fontSizeLookup f.fontSize
         content := jsToString v
         maxWidth := some (f.rect.w * d.width - 4)
         lineHeight := some (fontSizeLookup f.fontSize * 1.2) }] ∧
    fontSizeLookup (some FontSize.small) = 7 ∧
    fontSizeLookup (some FontSize.medium) = 9 ∧
    fontSizeLookup (some FontSize.large) = 12 ∧
    fontSizeLookup none = 9 := by
  have h := instrForField_active pages data f v d hdata hv1 hv2 hpn hd
  rw [if_neg (by rcases htype with ht | ht <;> rw [ht] <;>
    exact fun hc => FieldType.noConfusion hc)] at h
  exact ⟨by simp [generate, h], rfl, rfl, rfl, rfl⟩

/-- C7 witness: the spec's worked example — rect `{0.1, 0.2, 0.3, 0.05}` on
a 600×800 page at medium font yields `x = 62`, `y = 629`,
`maxWidth = 176`. -/
theorem text_instruction_layout_witness :
    generate [{ id := "f1", key := "name", type := FieldType.text, page_number := 1
                fontSize := some FontSize.medium, rect := ⟨1 / 10, 1 / 5, 3 / 10, 1 / 20⟩ }]
        [⟨600, 800⟩] (fun k => if k = "name" then some (JSValue.str "Ada") else none) =
      [{ page_number := 1, kind := InstrKind.text, x := 62, y := 629, size := 9
         content := "Ada", maxWidth := some 176, lineHeight := some (9 * 1.2) }] := by
  have h := (text_instruction_layout
    { id := "f1", key := "name", type := FieldType.text, page_number := 1
      fontSize := some FontSize.medium, rect := ⟨1 / 10, 1 / 5, 3 / 10, 1 / 20⟩ }
    [⟨600, 800⟩] (fun k => if k = "name" then some (JSValue.str "Ada") else none)
    (JSValue.str "Ada") ⟨600, 800⟩ (Or.inl rfl) rfl (by decide) (by decide)
    (by decide) rfl).1
  rw [h]
  norm_num [fontSizeLookup, jsToString]

end PdfMapper
